import Mathlib

/-!
Verification development for the country-state-api data indexing and
dual-backend lookup engine (src/main.py).

The Python source is shallowly embedded: Pydantic models become structures,
Python strings are Lean `String` (a wrapper around `List Char`), Python
`str.lower`/`str.upper` are modelled characterwise with `Char.toLower` /
`Char.toUpper` (exact on ASCII, which is what all concrete inputs use),
`str.strip` drops whitespace from both ends, the `in` substring operator is
an explicit sliding scan, dict lookups become association-list lookups
(country codes are globally unique per the data-model invariant, so
first-match and last-match semantics agree), and object mutation during the
load phase becomes explicit state passing over the list of countries.
Floating point fields (latitude/longitude) are omitted: no verified claim
depends on them.  HTTP 404 responses are modelled as `none`.
-/

namespace CountryStateApi

/-- Python `str.lower`, modelled characterwise (ASCII-exact). -/
def lowerStr (s : String) : String := ⟨s.data.map Char.toLower⟩

/-- Python `str.upper`, modelled characterwise (ASCII-exact). -/
def upperStr (s : String) : String := ⟨s.data.map Char.toUpper⟩

/-- Whitespace test used by Python `str.strip` (modelled by `Char.isWhitespace`). -/
def isWS (c : Char) : Bool := c.isWhitespace

/-- Drop trailing whitespace from a character list (Python `str.rstrip`). -/
def rstripList (l : List Char) : List Char := (l.reverse.dropWhile isWS).reverse

/-- Python `str.strip`: drop whitespace from both ends. -/
def stripStr (s : String) : String := ⟨rstripList (s.data.dropWhile isWS)⟩

/-- Python substring test `needle in hay` on character lists: some suffix of
`hay` has `needle` as an initial segment (the empty needle always matches). -/
def listSub : List Char → List Char → Bool
  | ndl, [] => ndl.isEmpty
  | ndl, c :: rest => ndl.isPrefixOf (c :: rest) || listSub ndl rest

/-- Python `needle in hay` for strings. -/
def strContains (needle hay : String) : Bool := listSub needle.data hay.data

/-- Python `s.startswith(p)` for strings. -/
def strStartsWith (s p : String) : Bool := p.data.isPrefixOf s.data

/-- Key normalization used for Redis city keys: `s.lower().replace(' ', '_')`
(a single-character replace is a characterwise map). -/
def keyNorm (s : String) : String :=
  ⟨(lowerStr s).data.map (fun c => if c = ' ' then '_' else c)⟩

/-- City model (src/main.py class City); latitude/longitude omitted (floats,
irrelevant to every claim). -/
structure City where
  name : String
  name_local : String := ""
deriving DecidableEq

/-- State model (src/main.py class State); `cities: Optional[List[City]] = []`
is modelled as a plain list (the code treats `None` and `[]` identically via
`or []` / truthiness guards). -/
structure State where
  name : String
  cities : List City := []
deriving DecidableEq

/-- Country model (src/main.py class Country); fields never read by any claim
(currency, currency_symbol, language, population) are omitted. -/
structure Country where
  code : String
  name : String
  phone_code : String := ""
  flag : String := ""
  region : String := ""
  subregion : String := ""
  states : List State := []
deriving DecidableEq

/-- Dropdown projection (src/main.py class CountryBase). -/
structure CountryBase where
  code : String
  name : String
  phone_code : String := ""
  flag : String := ""
deriving DecidableEq

/-- Region-listing projection (src/main.py class CountryWithRegion). -/
structure CountryWithRegion where
  code : String
  name : String
  phone_code : String := ""
  flag : String := ""
  region : String := ""
  subregion : String := ""
deriving DecidableEq

/-- Lookup of `country_lookup[code]` (dict keyed by `country.code`): first
match models the dict since codes are unique. -/
def lookupCountry (cs : List Country) (code : String) : Option Country :=
  cs.find? (fun c => c.code == code)

/-- Exact-match predicate of find_state_relaxedly: `s.name.lower() == target`. -/
def exactPred (target : String) (s : State) : Bool :=
  lowerStr s.name == target

/-- Relaxed-match predicate of find_state_relaxedly:
`target in s.name.lower() or s.name.lower() in target`. -/
def relaxedPred (target : String) (s : State) : Bool :=
  strContains target (lowerStr s.name) || strContains (lowerStr s.name) target

/-- src/main.py lines 119-134, `find_state_relaxedly`: return `None` for an
unknown country, else the first exact lowercase match for the
lowercased-and-stripped query, else the first bidirectional-substring match. -/
def find_state_relaxedly (cs : List Country) (country_code state_name : String) :
    Option State :=
  match lookupCountry cs country_code with
  | none => none
  | some country =>
    let target := stripStr (lowerStr state_name)
    match country.states.find? (exactPred target) with
    | some s => some s
    | none => country.states.find? (relaxedPred target)

/-- Helper: `find?` returns the head of the first satisfying split. -/
theorem find?_append_cons {α : Type} (p : α → Bool) (pre : List α) (s : α)
    (post : List α) (hs : p s = true) (hpre : ∀ x ∈ pre, p x = false) :
    (pre ++ s :: post).find? p = some s := by
  induction pre with
  | nil => simp [List.find?, hs]
  | cons a l ih =>
    have ha : p a = false := hpre a (List.mem_cons_self a l)
    simp only [List.cons_append, List.find?, ha]
    exact ih fun x hx => hpre x (List.mem_cons_of_mem a hx)

/-- C1.  find_state_relaxedly returns NotFound when the country code is not in
the lookup map; otherwise it returns the first state whose lowercased name
equals the lowercased, trimmed query; only if no exact match exists it returns
the first state in iteration order matching the bidirectional substring rule;
and it returns NotFound exactly when no state satisfies either rule. -/
theorem C1_find_state_relaxedly_spec (cs : List Country) (code q : String) :
    (lookupCountry cs code = none → find_state_relaxedly cs code q = none)
    ∧ (∀ c, lookupCountry cs code = some c →
        ((∀ pre s post, c.states = pre ++ s :: post →
            exactPred (stripStr (lowerStr q)) s = true →
            (∀ x ∈ pre, exactPred (stripStr (lowerStr q)) x = false) →
            find_state_relaxedly cs code q = some s)
        ∧ ((∀ x ∈ c.states, exactPred (stripStr (lowerStr q)) x = false) →
            ∀ pre s post, c.states = pre ++ s :: post →
              relaxedPred (stripStr (lowerStr q)) s = true →
              (∀ x ∈ pre, relaxedPred (stripStr (lowerStr q)) x = false) →
              find_state_relaxedly cs code q = some s)
        ∧ (find_state_relaxedly cs code q = none ↔
            ∀ x ∈ c.states, exactPred (stripStr (lowerStr q)) x = false ∧
              relaxedPred (stripStr (lowerStr q)) x = false))) := by
  constructor
  · intro h
    simp [find_state_relaxedly, h]
  · intro c hc
    refine ⟨?_, ?_, ?_⟩
    · intro pre s post hsplit hs hpre
      simp only [find_state_relaxedly, hc, hsplit]
      rw [find?_append_cons _ pre s post hs hpre]
    · intro hnone pre s post hsplit hs hpre
      have hfe : c.states.find? (exactPred (stripStr (lowerStr q))) = none :=
        List.find?_eq_none.mpr (fun x hx => by simp [hnone x hx])
      simp only [find_state_relaxedly, hc, hsplit]
      rw [hsplit] at hfe
      rw [hfe]
      exact find?_append_cons _ pre s post hs hpre
    · constructor
      · intro h
        simp only [find_state_relaxedly, hc] at h
        rcases hfe : c.states.find? (exactPred (stripStr (lowerStr q))) with _ | s
        · rw [hfe] at h
          have h2 := List.find?_eq_none.mp h
          have h1 := List.find?_eq_none.mp hfe
          exact fun x hx => ⟨by simpa using h1 x hx, by simpa using h2 x hx⟩
        · rw [hfe] at h
          exact absurd h (by simp)
      · intro hall
        have hfe : c.states.find? (exactPred (stripStr (lowerStr q))) = none :=
          List.find?_eq_none.mpr (fun x hx => by simp [(hall x hx).1])
        have hfr : c.states.find? (relaxedPred (stripStr (lowerStr q))) = none :=
          List.find?_eq_none.mpr (fun x hx => by simp [(hall x hx).2])
        simp [find_state_relaxedly, hc, hfe, hfr]

/-- Demo dataset for witnesses: one country with one master state. -/
def demoCountries : List Country :=
  [{ code := "US", name := "United States", phone_code := "+1",
     states := [{ name := "California" }] }]

/-- Witness for C1: resolving the padded query " California " against the
demo dataset returns the California state via the exact-match branch. -/
theorem C1_witness :
    find_state_relaxedly demoCountries "US" " California " =
      some { name := "California" } :=
  ((C1_find_state_relaxedly_spec demoCountries "US" " California ").2
    { code := "US", name := "United States", phone_code := "+1",
      states := [{ name := "California" }] } rfl).1
    [] { name := "California" } [] rfl (by decide) (by simp)

/-- Input city record from world_cities.json; `name_local` holds the already
resolved `city.get("name_local", city.get("name_mm", ""))` value (the same
resolution is applied by both backends). -/
structure CityRec where
  country_code : String
  state_name : String
  name : String
  name_local : String := ""
deriving DecidableEq

/-- City object built from a record (src/main.py lines 202-207; also the
deserialized shape served by the Redis branch after name_mm compatibility). -/
def recordCity (r : CityRec) : City :=
  { name := r.name, name_local := r.name_local }

/-- Mutation of the single country object held in `country_lookup[code]`:
update the first (unique) country with the given code. -/
def updateFirstCountry : List Country → String → (Country → Country) → List Country
  | [], _, _ => []
  | c :: cs, code, f =>
    if c.code == code then f c :: cs else c :: updateFirstCountry cs code f

/-- Membership test `s_name.lower() in state_lookup[c_code]` (the incremental
per-country index of lowercased state names, src/main.py lines 177, 192). -/
def hasStateNamed (cs : List Country) (code nm : String) : Bool :=
  match lookupCountry cs code with
  | some c => c.states.any (fun s => lowerStr s.name == nm)
  | none => false

/-- Dynamic state creation (src/main.py lines 191-195): if the record's
country is known and no state with the record's lowercased name exists yet,
append a fresh empty state with the record's original-cased name. -/
def dynCreate (cs : List Country) (r : CityRec) : List Country :=
  if (lookupCountry cs r.country_code).isSome
      && !(hasStateNamed cs r.country_code (lowerStr r.state_name)) then
    updateFirstCountry cs r.country_code
      (fun c => { c with states := c.states ++ [{ name := r.state_name, cities := [] }] })
  else cs

/-- Index of the first list element satisfying `p` (models Python `next` over
a generator, by position so that object mutation can be expressed). -/
def firstIdx {α : Type} (p : α → Bool) : List α → Option Nat
  | [] => none
  | a :: l => if p a then some 0 else (firstIdx p l).map (· + 1)

/-- Position-returning version of the state resolution inside
find_state_relaxedly: first exact match, else first relaxed match. -/
def findStateIdxIn (states : List State) (state_name : String) : Option Nat :=
  match firstIdx (exactPred (stripStr (lowerStr state_name))) states with
  | some i => some i
  | none => firstIdx (relaxedPred (stripStr (lowerStr state_name))) states

/-- Append a city to the cities of the state at position `i`
(the `state.cities.append(...)` mutation of src/main.py line 202). -/
def appendCityAt : List State → Nat → City → List State
  | [], _, _ => []
  | s :: ss, 0, city => { s with cities := s.cities ++ [city] } :: ss
  | s :: ss, Nat.succ n, city => s :: appendCityAt ss n city

/-- Attach a city to state `i` of the country registered under `code`. -/
def attachCity (cs : List Country) (code : String) (i : Nat) (city : City) :
    List Country :=
  updateFirstCountry cs code (fun c => { c with states := appendCityAt c.states i city })

/-- One loop iteration of src/main.py lines 179-207 in Embedded
(USE_REDIS = False) mode: dynamic state creation, then relaxed resolution and
city attachment. -/
def stepEmbedded (cs : List Country) (r : CityRec) : List Country :=
  let cs1 := dynCreate cs r
  match lookupCountry cs1 r.country_code with
  | none => cs1
  | some c =>
    match findStateIdxIn c.states r.state_name with
    | none => cs1
    | some i => attachCity cs1 r.country_code i (recordCity r)

/-- Full Embedded-mode city load over the record list. -/
def loadEmbedded (master : List Country) (rs : List CityRec) : List Country :=
  rs.foldl stepEmbedded master

/-- Full Cache-Aside-mode hierarchy load: only dynamic state creation runs
(cities are never attached in-memory when USE_REDIS is true). -/
def loadCache (master : List Country) (rs : List CityRec) : List Country :=
  rs.foldl dynCreate master

/-- Value stored in the external key-value store: either a plain string (the
sentinel marker) or a serialized group of city records (JSON round-trip is
modelled as the identity on the record group). -/
inductive StoreVal where
  | str (s : String)
  | recs (rs : List CityRec)
deriving DecidableEq

/-- External key-value store modelled as a write log; a `set` prepends and a
`get` reads the most recent write. -/
abbrev Store := List (String × StoreVal)

/-- Redis GET. -/
def storeGet (st : Store) (k : String) : Option StoreVal :=
  (st.find? (fun kv => kv.1 == k)).map (fun kv => kv.2)

/-- Redis SET. -/
def storeSet (st : Store) (k : String) (v : StoreVal) : Store :=
  (k, v) :: st

/-- Python truthiness of a Redis GET result: absent keys and empty strings
are falsy; a serialized record group is a non-empty JSON string, hence truthy. -/
def truthyVal : StoreVal → Bool
  | .str s => !s.isEmpty
  | .recs _ => true

/-- Truthiness of an optional GET result. -/
def truthyOpt : Option StoreVal → Bool
  | none => false
  | some v => truthyVal v

/-- Sentinel key of the population protocol. -/
def sentinelKey : String := "system:cities_loaded"

/-- Storage key computed at population time from a raw record
(`f"cities:{c_code.upper()}:{s_name.lower().replace(' ', '_')}"`). -/
def recordKey (r : CityRec) : String :=
  "cities:" ++ upperStr r.country_code ++ ":" ++ keyNorm r.state_name

/-- Storage key computed at lookup time from the resolved state's name
(src/main.py line 261). -/
def cityKey (cc stateName : String) : String :=
  "cities:" ++ cc ++ ":" ++ keyNorm stateName

/-- Deduplicate keeping first occurrences (Python dict insertion order). -/
def firstDedup (l : List String) : List String :=
  l.foldl (fun acc k => if acc.contains k then acc else acc ++ [k]) []

/-- Keys of `data_by_state`, in insertion order. -/
def groupKeysOf (rs : List CityRec) : List String :=
  firstDedup (rs.map recordKey)

/-- Record group stored under key `k` (`data_by_state[k]`, in record order). -/
def groupOf (rs : List CityRec) (k : String) : List CityRec :=
  rs.filter (fun r => recordKey r == k)

/-- Cache-Aside population protocol (src/main.py lines 156-172): skip when
the sentinel GET is truthy, otherwise write every record group and finally
the sentinel value "true". -/
def populate (st : Store) (rs : List CityRec) : Store :=
  if truthyOpt (storeGet st sentinelKey) then st
  else
    storeSet
      ((groupKeysOf rs).foldl (fun acc k => storeSet acc k (.recs (groupOf rs k))) st)
      sentinelKey (.str "true")

/-- Embedded-mode `get_cities` (src/main.py lines 252-276 with USE_REDIS
False): uppercase the code, resolve relaxedly, 404 (`none`) when unresolved,
else the state's attached city list. -/
def get_cities_embedded (cs : List Country) (country_code state_name : String) :
    Option (List City) :=
  match find_state_relaxedly cs (upperStr country_code) state_name with
  | none => none
  | some s => some s.cities

/-- Cache-Aside-mode `get_cities` (src/main.py lines 252-276 with USE_REDIS
True): resolve relaxedly, GET the key derived from the resolved state's name,
serve the deserialized group when the GET is truthy, otherwise fall through to
the in-memory list (empty in this mode unless master data carried cities).
A plain-string value at a city key never occurs in stores built by
`populate`; its deserialization is modelled as the empty group. -/
def get_cities_cache (cs : List Country) (st : Store)
    (country_code state_name : String) : Option (List City) :=
  let cc := upperStr country_code
  match find_state_relaxedly cs cc state_name with
  | none => none
  | some s =>
    match storeGet st (cityKey cc s.name) with
    | some (StoreVal.recs grp) => some (grp.map recordCity)
    | some (StoreVal.str v) => if v.isEmpty then some s.cities else some []
    | none => some s.cities

/-- Helper: a fresh SET is read back by GET on the same key. -/
theorem storeGet_set_same (st : Store) (k : String) (v : StoreVal) :
    storeGet (storeSet st k v) k = some v := by
  simp [storeGet, storeSet, List.find?]

/-- C3 counterexample: with the sentinel key present but bound to the empty
string (a falsy value), the population protocol does perform writes: the
store is not left unchanged, contradicting the claim as stated. -/
theorem C3_counterexample :
    populate [(sentinelKey, StoreVal.str "")] [] ≠ [(sentinelKey, StoreVal.str "")] := by
  decide

/-- C3 amended.  Running the population protocol against a store whose
sentinel key holds a truthy (non-empty) value performs no writes, and the
protocol is idempotent: a second run never changes the store produced by a
first run. -/
theorem C3_populate_idempotent (st : Store) (rs : List CityRec) :
    (∀ v, storeGet st sentinelKey = some v → truthyVal v = true →
      populate st rs = st)
    ∧ populate (populate st rs) rs = populate st rs := by
  constructor
  · intro v hv htr
    simp [populate, truthyOpt, hv, htr]
  · by_cases h : truthyOpt (storeGet st sentinelKey) = true
    · simp [populate, h]
    · have h1 : populate st rs =
          storeSet
            ((groupKeysOf rs).foldl
              (fun acc k => storeSet acc k (.recs (groupOf rs k))) st)
            sentinelKey (.str "true") := by
        simp [populate, h]
      rw [h1]
      have h2 : truthyOpt (storeGet (storeSet
          ((groupKeysOf rs).foldl
            (fun acc k => storeSet acc k (.recs (groupOf rs k))) st)
          sentinelKey (.str "true")) sentinelKey) = true := by
        rw [storeGet_set_same]
        rfl
      simp [populate, h2]

/-- Witness for C3: on a store whose sentinel already holds "true", the
protocol changes nothing. -/
theorem C3_witness :
    populate [(sentinelKey, StoreVal.str "true")] [] =
      [(sentinelKey, StoreVal.str "true")] :=
  (C3_populate_idempotent [(sentinelKey, StoreVal.str "true")] []).1
    (StoreVal.str "true") rfl rfl

/-- Master dataset for the C2 counterexample: one country, one master state. -/
def c2Master : List Country :=
  [{ code := "XX", name := "Xanadu", states := [{ name := "California" }] }]

/-- City dataset for the C2 counterexample: the record's state name carries a
leading space, so the Embedded attach (which strips the lookup target)
resolves to the master state "California", while the Cache-Aside population
keys the record under "cities:XX:_california". -/
def c2Records : List CityRec :=
  [{ country_code := "XX", state_name := " California", name := "Paris" }]

/-- C2 counterexample: on the dataset above, querying get-cities("XX",
"California") yields the city "Paris" from the Embedded variant but the empty
list from the Cache-Aside variant, so the two variants do not return the same
set of city names for every fixed dataset. -/
theorem C2_counterexample :
    get_cities_embedded (loadEmbedded c2Master c2Records) "XX" "California" =
        some [{ name := "Paris" }]
    ∧ get_cities_cache (loadCache c2Master c2Records) (populate [] c2Records)
        "XX" "California" = some []
    ∧ get_cities_embedded (loadEmbedded c2Master c2Records) "XX" "California" ≠
        get_cities_cache (loadCache c2Master c2Records) (populate [] c2Records)
          "XX" "California" := by
  refine ⟨by decide, by decide, by decide⟩

/-- States registered under a country code (empty for unknown codes). -/
def statesOf (cs : List Country) (code : String) : List State :=
  match lookupCountry cs code with
  | some c => c.states
  | none => []

/-- Name projection of a state list. -/
def stateNames (states : List State) : List String :=
  states.map (fun s => s.name)

/-- Exact-match predicate on a bare state name. -/
def exactPredN (target n : String) : Bool := lowerStr n == target

/-- Relaxed-match predicate on a bare state name. -/
def relaxedPredN (target n : String) : Bool :=
  strContains target (lowerStr n) || strContains (lowerStr n) target

theorem updateFirst_not_found (cs : List Country) (a : String)
    (f : Country → Country) (h : lookupCountry cs a = none) :
    updateFirstCountry cs a f = cs := by
  induction cs with
  | nil => rfl
  | cons c cs ih =>
    simp only [lookupCountry, List.find?] at h
    rcases hceq : (c.code == a) with _ | _
    · rw [hceq] at h
      simp only [updateFirstCountry, hceq, Bool.false_eq_true, if_false]
      rw [ih h]
    · rw [hceq] at h
      exact absurd h (by simp)

theorem lookup_updateFirst (cs : List Country) (a b : String)
    (f : Country → Country) (hf : ∀ c, (f c).code = c.code) :
    lookupCountry (updateFirstCountry cs a f) b =
      if b = a then (lookupCountry cs a).map f else lookupCountry cs b := by
  induction cs with
  | nil => simp [updateFirstCountry, lookupCountry]
  | cons c cs ih =>
    by_cases hba : b = a
    · subst hba
      rcases hceq : (c.code == b) with _ | _
      · simp only [updateFirstCountry, hceq, Bool.false_eq_true, if_false,
          lookupCountry, List.find?] at ih ⊢
        simpa [hceq] using ih
      · have hfc : ((f c).code == b) = true := by
          rw [hf c]
          exact hceq
        simp [updateFirstCountry, hceq, lookupCountry, List.find?, hfc]
    · have hab : ¬ a = b := fun h => hba h.symm
      rcases hceq : (c.code == a) with _ | _
      · rcases hcb : (c.code == b) with _ | _
        · simp only [updateFirstCountry, hceq, Bool.false_eq_true, if_false,
            lookupCountry, List.find?, hcb] at ih ⊢
          simpa [hba, hcb] using ih
        · simp [updateFirstCountry, hceq, lookupCountry, List.find?, hcb, hba]
      · have hca : c.code = a := by simpa using hceq
        have hfb : ((f c).code == b) = false := by
          rw [hf c, hca]
          simpa using hab
        have hcb : (c.code == b) = false := by
          rw [hca]
          simpa using hab
        simp [updateFirstCountry, hceq, lookupCountry, List.find?, hfb, hcb, hba]

theorem updateFirst_same (cs : List Country) (a : String)
    (f g : Country → Country) (hf : ∀ c, (f c).code = c.code) :
    updateFirstCountry (updateFirstCountry cs a f) a g =
      updateFirstCountry cs a (fun c => g (f c)) := by
  induction cs with
  | nil => rfl
  | cons c cs ih =>
    rcases hceq : (c.code == a) with _ | _
    · simp [updateFirstCountry, hceq, ih]
    · have : ((f c).code == a) = true := by
        have := hf c
        simp_all
      simp [updateFirstCountry, hceq, this]

theorem updateFirst_congr_found (cs : List Country) (a : String)
    (f g : Country → Country) (c0 : Country)
    (hc0 : lookupCountry cs a = some c0) (hfg : f c0 = g c0) :
    updateFirstCountry cs a f = updateFirstCountry cs a g := by
  induction cs with
  | nil => rfl
  | cons c cs ih =>
    rcases hceq : (c.code == a) with _ | _
    · simp only [lookupCountry, List.find?, hceq] at hc0
      simp only [updateFirstCountry, hceq, Bool.false_eq_true, if_false]
      rw [ih hc0]
    · simp only [lookupCountry, List.find?, hceq] at hc0
      have : c = c0 := by simpa using hc0
      subst this
      simp [updateFirstCountry, hceq, hfg]

theorem mem_updateFirst (cs : List Country) (a : String)
    (f : Country → Country) (x : Country)
    (hx : x ∈ updateFirstCountry cs a f) :
    x ∈ cs ∨ ∃ c ∈ cs, x = f c := by
  induction cs with
  | nil => simp [updateFirstCountry] at hx
  | cons c cs ih =>
    rcases hceq : (c.code == a) with _ | _
    · simp only [updateFirstCountry, hceq, Bool.false_eq_true, if_false] at hx
      rcases List.mem_cons.mp hx with h | h
      · exact Or.inl (by simp [h])
      · rcases ih h with h2 | ⟨c2, hc2, he⟩
        · exact Or.inl (List.mem_cons_of_mem c h2)
        · exact Or.inr ⟨c2, List.mem_cons_of_mem c hc2, he⟩
    · simp only [updateFirstCountry, hceq, if_true] at hx
      rcases List.mem_cons.mp hx with h | h
      · exact Or.inr ⟨c, List.mem_cons_self c cs, h⟩
      · exact Or.inl (List.mem_cons_of_mem c h)

theorem firstIdx_lt_length {α : Type} (p : α → Bool) (l : List α) (i : Nat)
    (h : firstIdx p l = some i) : i < l.length := by
  induction l generalizing i with
  | nil => simp [firstIdx] at h
  | cons a l ih =>
    rcases hp : p a with _ | _
    · simp only [firstIdx, hp, Bool.false_eq_true, if_false] at h
      rcases ho : firstIdx p l with _ | j
      · rw [ho] at h
        simp at h
      · rw [ho] at h
        have hj := ih j ho
        have : j + 1 = i := by simpa using h
        simp only [List.length_cons]
        omega
    · simp only [firstIdx, hp, if_true] at h
      have : i = 0 := by simpa using h.symm
      simp [this]

theorem firstIdx_none_iff {α : Type} (p : α → Bool) (l : List α) :
    firstIdx p l = none ↔ ∀ x ∈ l, p x = false := by
  induction l with
  | nil => simp [firstIdx]
  | cons a l ih =>
    rcases hp : p a with _ | _
    · constructor
      · intro h x hx
        rcases List.mem_cons.mp hx with he | hm
        · rw [he]
          exact hp
        · refine (ih.mp ?_) x hm
          simp only [firstIdx, hp, Bool.false_eq_true, if_false] at h
          rcases ho : firstIdx p l with _ | j
          · rfl
          · rw [ho] at h
            simp at h
      · intro h
        simp only [firstIdx, hp, Bool.false_eq_true, if_false]
        rw [ih.mpr (fun x hx => h x (List.mem_cons_of_mem a hx))]
        rfl
    · constructor
      · intro h
        simp [firstIdx, hp] at h
      · intro h
        exact absurd (h a (List.mem_cons_self a l)) (by simp [hp])

theorem firstIdx_some_iff {α : Type} (p : α → Bool) (l : List α) (i : Nat) :
    firstIdx p l = some i ↔
      ((∃ a, l.get? i = some a ∧ p a = true)
        ∧ ∀ j, j < i → ∃ a, l.get? j = some a ∧ p a = false) := by
  induction l generalizing i with
  | nil => simp [firstIdx]
  | cons x l ih =>
    rcases hp : p x with _ | _
    · simp only [firstIdx, hp, Bool.false_eq_true, if_false]
      constructor
      · intro h
        rcases ho : firstIdx p l with _ | j
        · rw [ho] at h
          simp at h
        · rw [ho] at h
          have hji : j + 1 = i := by simpa using h
          subst hji
          rcases (ih j).mp ho with ⟨⟨a, ha, hpa⟩, hlt⟩
          refine ⟨⟨a, by simpa using ha, hpa⟩, ?_⟩
          intro k hk
          match k with
          | 0 => exact ⟨x, rfl, hp⟩
          | Nat.succ k2 =>
            rcases hlt k2 (by omega) with ⟨b, hb, hpb⟩
            exact ⟨b, by simpa using hb, hpb⟩
      · rintro ⟨⟨a, ha, hpa⟩, hlt⟩
        match i with
        | 0 =>
          have : x = a := by simpa using ha
          subst this
          rw [hpa] at hp
          simp at hp
        | Nat.succ i2 =>
          have h2 : firstIdx p l = some i2 := by
            refine (ih i2).mpr ⟨⟨a, by simpa using ha, hpa⟩, ?_⟩
            intro k hk
            rcases hlt (k + 1) (by omega) with ⟨b, hb, hpb⟩
            exact ⟨b, by simpa using hb, hpb⟩
          simp [h2]
    · simp only [firstIdx, hp, if_true]
      constructor
      · intro h
        have : i = 0 := by simpa using h.symm
        subst this
        exact ⟨⟨x, rfl, hp⟩, by omega⟩
      · rintro ⟨_, hlt⟩
        match i with
        | 0 => rfl
        | Nat.succ i2 =>
          rcases hlt 0 (by omega) with ⟨b, hb, hpb⟩
          have : x = b := by simpa using hb
          subst this
          rw [hpb] at hp
          simp at hp

theorem firstIdx_append {α : Type} (p : α → Bool) (l1 l2 : List α) (i : Nat)
    (h : firstIdx p l1 = some i) : firstIdx p (l1 ++ l2) = some i := by
  induction l1 generalizing i with
  | nil => simp [firstIdx] at h
  | cons a l ih =>
    rw [List.cons_append]
    rcases hp : p a with _ | _
    · simp only [firstIdx, hp, Bool.false_eq_true, if_false] at h ⊢
      rcases ho : firstIdx p l with _ | j
      · rw [ho] at h
        simp at h
      · rw [ho] at h
        rw [ih j ho]
        exact h
    · simp only [firstIdx, hp, if_true] at h ⊢
      exact h

theorem firstIdx_factor_name (q : String → Bool) (states : List State) :
    firstIdx (fun s => q s.name) states = firstIdx q (stateNames states) := by
  induction states with
  | nil => rfl
  | cons s states ih => simp [firstIdx, stateNames, ih]

theorem find?_eq_firstIdx_get {α : Type} (p : α → Bool) (l : List α) :
    l.find? p = (firstIdx p l).bind l.get? := by
  induction l with
  | nil => rfl
  | cons a l ih =>
    simp only [List.find?, firstIdx]
    rcases hp : p a with _ | _
    · simp only [Bool.false_eq_true, if_false]
      rw [ih]
      rcases ho : firstIdx p l with _ | j
      · rfl
      · simp
    · simp

theorem find_state_relaxedly_eq_idx (cs : List Country) (code q : String) :
    find_state_relaxedly cs code q =
      (lookupCountry cs code).bind
        (fun c => (findStateIdxIn c.states q).bind c.states.get?) := by
  rcases hc : lookupCountry cs code with _ | c
  · simp [find_state_relaxedly, hc]
  · simp only [find_state_relaxedly, hc, findStateIdxIn, Option.some_bind]
    rw [find?_eq_firstIdx_get (exactPred (stripStr (lowerStr q))),
        find?_eq_firstIdx_get (relaxedPred (stripStr (lowerStr q)))]
    rcases he : firstIdx (exactPred (stripStr (lowerStr q))) c.states with _ | i
    · simp [he]
    · have hlt := firstIdx_lt_length _ _ _ he
      have hg : c.states.get? i = some (c.states.get ⟨i, hlt⟩) := List.get?_eq_get hlt
      rw [List.get?_eq_getElem?] at hg
      simp [he, hg]

theorem stateNames_appendCityAt (states : List State) (i : Nat) (city : City) :
    stateNames (appendCityAt states i city) = stateNames states := by
  induction states generalizing i with
  | nil => rfl
  | cons s ss ih =>
    match i with
    | 0 => simp [appendCityAt, stateNames]
    | Nat.succ n =>
      have h2 := ih n
      simp only [stateNames] at h2 ⊢
      simp only [appendCityAt, List.map_cons, h2]

theorem get?_appendCityAt (states : List State) (i j : Nat) (city : City) :
    (appendCityAt states i city).get? j =
      if j = i then
        (states.get? i).map (fun s => { s with cities := s.cities ++ [city] })
      else states.get? j := by
  induction states generalizing i j with
  | nil =>
    simp only [appendCityAt]
    split <;> simp
  | cons s ss ih =>
    match i, j with
    | 0, 0 => simp [appendCityAt]
    | 0, Nat.succ j2 => simp [appendCityAt]
    | Nat.succ n, 0 => simp [appendCityAt]
    | Nat.succ n, Nat.succ j2 =>
      have := ih n j2
      simp only [appendCityAt, List.get?]
      rw [this]
      by_cases hji : j2 = n
      · simp [hji]
      · simp [hji, Nat.succ_ne_succ]

theorem appendCityAt_append_left (l1 l2 : List State) (i : Nat) (city : City)
    (h : i < l1.length) :
    appendCityAt (l1 ++ l2) i city = appendCityAt l1 i city ++ l2 := by
  induction l1 generalizing i with
  | nil => simp at h
  | cons s ss ih =>
    match i with
    | 0 => simp [appendCityAt]
    | Nat.succ n =>
      have hn : n < ss.length := by
        simp only [List.length_cons] at h
        omega
      simp [appendCityAt, ih n hn]

theorem lookup_updateStates (cs : List Country) (a b : String)
    (g : Country → List State) :
    lookupCountry (updateFirstCountry cs a (fun c => { c with states := g c })) b =
      if b = a then (lookupCountry cs a).map (fun c => { c with states := g c })
      else lookupCountry cs b :=
  lookup_updateFirst cs a b _ (fun _ => rfl)

theorem lookup_dynCreate_ne (cs : List Country) (r : CityRec) (b : String)
    (hb : b ≠ r.country_code) :
    lookupCountry (dynCreate cs r) b = lookupCountry cs b := by
  unfold dynCreate
  split
  · rw [lookup_updateStates]
    simp [hb]
  · rfl

theorem lookup_dynCreate_self (cs : List Country) (r : CityRec) (c : Country)
    (hc : lookupCountry cs r.country_code = some c) :
    ∃ ext, lookupCountry (dynCreate cs r) r.country_code =
      some { c with states := c.states ++ ext } := by
  unfold dynCreate
  split
  · refine ⟨[{ name := r.state_name, cities := [] }], ?_⟩
    rw [lookup_updateStates]
    simp [hc]
  · exact ⟨[], by simp [hc]⟩

theorem lookup_dynCreate_none (cs : List Country) (r : CityRec) (b : String)
    (h : lookupCountry cs b = none) :
    lookupCountry (dynCreate cs r) b = none := by
  by_cases hb : b = r.country_code
  · subst hb
    unfold dynCreate
    split
    · rw [lookup_updateStates]
      simp [h]
    · exact h
  · rw [lookup_dynCreate_ne cs r b hb]
    exact h

theorem isSome_lookup_dynCreate (cs : List Country) (r : CityRec) (b : String) :
    (lookupCountry (dynCreate cs r) b).isSome = (lookupCountry cs b).isSome := by
  by_cases hb : b = r.country_code
  · subst hb
    rcases hc : lookupCountry cs r.country_code with _ | c
    · rw [lookup_dynCreate_none cs r r.country_code hc]
    · rcases lookup_dynCreate_self cs r c hc with ⟨ext, he⟩
      rw [he]
      rfl
  · rw [lookup_dynCreate_ne cs r b hb]

theorem hasStateNamed_dynCreate_self (cs : List Country) (r : CityRec)
    (h : (lookupCountry cs r.country_code).isSome = true) :
    hasStateNamed (dynCreate cs r) r.country_code (lowerStr r.state_name) = true := by
  rcases hc : lookupCountry cs r.country_code with _ | c
  · rw [hc] at h
    simp at h
  · rcases hh : hasStateNamed cs r.country_code (lowerStr r.state_name) with _ | _
    · have hg : ((lookupCountry cs r.country_code).isSome
          && !(hasStateNamed cs r.country_code (lowerStr r.state_name))) = true := by
        rw [hc, hh]
        rfl
      unfold dynCreate
      rw [if_pos hg]
      unfold hasStateNamed
      rw [lookup_updateStates]
      simp [hc]
    · have hg : ((lookupCountry cs r.country_code).isSome
          && !(hasStateNamed cs r.country_code (lowerStr r.state_name))) = false := by
        rw [hc, hh]
        rfl
      unfold dynCreate
      rw [if_neg (by simp [hg])]
      exact hh

theorem lookup_attachCity_ne (cs : List Country) (a b : String) (i : Nat)
    (city : City) (hb : b ≠ a) :
    lookupCountry (attachCity cs a i city) b = lookupCountry cs b := by
  unfold attachCity
  rw [lookup_updateStates]
  simp [hb]

theorem lookup_attachCity_self (cs : List Country) (a : String) (i : Nat)
    (city : City) (c : Country) (hc : lookupCountry cs a = some c) :
    lookupCountry (attachCity cs a i city) a =
      some { c with states := appendCityAt c.states i city } := by
  unfold attachCity
  rw [lookup_updateStates]
  simp [hc]

theorem any_factor_name (q : String → Bool) (states : List State) :
    (states.any (fun s => q s.name)) = (stateNames states).any q := by
  induction states with
  | nil => rfl
  | cons s ss ih => simp [stateNames, ih]

theorem hasStateNamed_attachCity (cs : List Country) (a : String) (i : Nat)
    (city : City) (code nm : String) :
    hasStateNamed (attachCity cs a i city) code nm = hasStateNamed cs code nm := by
  by_cases hb : code = a
  · subst hb
    rcases hc : lookupCountry cs code with _ | c
    · unfold attachCity
      rw [updateFirst_not_found _ _ _ hc]
    · unfold hasStateNamed
      rw [lookup_attachCity_self cs code i city c hc, hc]
      have h1 := any_factor_name (fun n => lowerStr n == nm) (appendCityAt c.states i city)
      have h2 := any_factor_name (fun n => lowerStr n == nm) c.states
      simp only [h1, h2, stateNames_appendCityAt]
  · unfold hasStateNamed
    rw [lookup_attachCity_ne cs a code i city hb]

theorem isSome_lookup_attachCity (cs : List Country) (a : String) (i : Nat)
    (city : City) (b : String) :
    (lookupCountry (attachCity cs a i city) b).isSome = (lookupCountry cs b).isSome := by
  by_cases hb : b = a
  · subst hb
    rcases hc : lookupCountry cs b with _ | c
    · unfold attachCity
      rw [updateFirst_not_found _ _ _ hc, hc]
    · rw [lookup_attachCity_self cs b i city c hc]
      rfl
  · rw [lookup_attachCity_ne cs a b i city hb]

theorem updateFirst_comm (cs : List Country) (a b : String)
    (f g : Country → Country) (hf : ∀ c, (f c).code = c.code)
    (hg : ∀ c, (g c).code = c.code) (hab : a ≠ b) :
    updateFirstCountry (updateFirstCountry cs a f) b g =
      updateFirstCountry (updateFirstCountry cs b g) a f := by
  induction cs with
  | nil => rfl
  | cons c cs ih =>
    rcases hca : (c.code == a) with _ | _
    · rcases hcb : (c.code == b) with _ | _
      · simp [updateFirstCountry, hca, hcb, ih]
      · have h2 : ((g c).code == a) = false := by
          rw [hg]
          exact hca
        simp [updateFirstCountry, hca, hcb, h2]
    · have hcb : (c.code == b) = false := by
        have h3 : c.code = a := by simpa using hca
        rw [h3]
        simpa using hab
      have h2 : ((f c).code == b) = false := by
        rw [hf]
        exact hcb
      simp [updateFirstCountry, hca, hcb, h2]

theorem updateFirst_same_states (cs : List Country) (a : String)
    (g1 g2 : Country → List State) :
    updateFirstCountry
        (updateFirstCountry cs a (fun c => { c with states := g1 c })) a
        (fun c => { c with states := g2 c }) =
      updateFirstCountry cs a
        (fun c => { c with states := g2 { c with states := g1 c } }) :=
  updateFirst_same cs a _ _ (fun _ => rfl)

theorem dynCreate_attachCity (cs : List Country) (a : String) (j : Nat)
    (city : City) (r : CityRec) (c0 : Country)
    (hc0 : lookupCountry cs a = some c0) (hj : j < c0.states.length) :
    dynCreate (attachCity cs a j city) r = attachCity (dynCreate cs r) a j city := by
  have hguard : ((lookupCountry (attachCity cs a j city) r.country_code).isSome
      && !(hasStateNamed (attachCity cs a j city) r.country_code (lowerStr r.state_name)))
      = ((lookupCountry cs r.country_code).isSome
      && !(hasStateNamed cs r.country_code (lowerStr r.state_name))) := by
    rw [isSome_lookup_attachCity, hasStateNamed_attachCity]
  rcases hg : ((lookupCountry cs r.country_code).isSome
      && !(hasStateNamed cs r.country_code (lowerStr r.state_name))) with _ | _
  · rw [hg] at hguard
    unfold dynCreate
    rw [if_neg (by simp [hguard]), if_neg (by simp [hg])]
  · rw [hg] at hguard
    unfold dynCreate
    rw [if_pos hguard, if_pos hg]
    by_cases hra : r.country_code = a
    · subst hra
      unfold attachCity
      rw [updateFirst_same_states, updateFirst_same_states]
      apply updateFirst_congr_found cs r.country_code _ _ c0 hc0
      simp only
      rw [appendCityAt_append_left c0.states _ j city hj]
    · unfold attachCity
      exact updateFirst_comm cs a r.country_code _ _ (fun c => rfl) (fun c => rfl)
        (fun h => hra h.symm)

theorem loadCache_attachCity (rs : List CityRec) (cs : List Country) (a : String)
    (j : Nat) (city : City) (c0 : Country)
    (hc0 : lookupCountry cs a = some c0) (hj : j < c0.states.length) :
    loadCache (attachCity cs a j city) rs = attachCity (loadCache cs rs) a j city := by
  induction rs generalizing cs c0 with
  | nil => rfl
  | cons r rs ih =>
    show loadCache (dynCreate (attachCity cs a j city) r) rs
      = attachCity (loadCache (dynCreate cs r) rs) a j city
    rw [dynCreate_attachCity cs a j city r c0 hc0 hj]
    by_cases hra : a = r.country_code
    · subst hra
      rcases lookup_dynCreate_self cs r c0 hc0 with ⟨ext, he⟩
      refine ih (dynCreate cs r) { c0 with states := c0.states ++ ext } he ?_
      simp only [List.length_append]
      omega
    · refine ih (dynCreate cs r) c0 ?_ hj
      rw [lookup_dynCreate_ne cs r a hra]
      exact hc0

theorem lookup_loadCache_none (rs : List CityRec) (cs : List Country) (b : String)
    (h : lookupCountry cs b = none) :
    lookupCountry (loadCache cs rs) b = none := by
  induction rs generalizing cs with
  | nil => exact h
  | cons r rs ih => exact ih (dynCreate cs r) (lookup_dynCreate_none cs r b h)

theorem lookup_loadCache_self (rs : List CityRec) (cs : List Country) (b : String)
    (c : Country) (hc : lookupCountry cs b = some c) :
    ∃ ext, lookupCountry (loadCache cs rs) b =
      some { c with states := c.states ++ ext } := by
  induction rs generalizing cs c with
  | nil =>
    refine ⟨[], ?_⟩
    simpa using hc
  | cons r rs ih =>
    by_cases hb : b = r.country_code
    · subst hb
      rcases lookup_dynCreate_self cs r c hc with ⟨e1, he⟩
      rcases ih (dynCreate cs r) _ he with ⟨e2, he2⟩
      refine ⟨e1 ++ e2, ?_⟩
      show lookupCountry (loadCache (dynCreate cs r) rs) r.country_code = _
      rw [he2]
      simp [List.append_assoc]
    · refine ih (dynCreate cs r) c ?_
      rw [lookup_dynCreate_ne cs r b hb]
      exact hc

theorem isSome_lookup_stepEmbedded (cs : List Country) (r : CityRec) (b : String) :
    (lookupCountry (stepEmbedded cs r) b).isSome = (lookupCountry cs b).isSome := by
  simp only [stepEmbedded]
  rcases h1 : lookupCountry (dynCreate cs r) r.country_code with _ | c
  · simp [isSome_lookup_dynCreate]
  · rcases h2 : findStateIdxIn c.states r.state_name with _ | i
    · simp [h2, isSome_lookup_dynCreate]
    · simp [h2, isSome_lookup_attachCity, isSome_lookup_dynCreate]

theorem isSome_lookup_loadEmbedded (rs : List CityRec) (cs : List Country)
    (b : String) :
    (lookupCountry (loadEmbedded cs rs) b).isSome = (lookupCountry cs b).isSome := by
  induction rs generalizing cs with
  | nil => rfl
  | cons r rs ih =>
    show (lookupCountry (loadEmbedded (stepEmbedded cs r) rs) b).isSome = _
    rw [ih (stepEmbedded cs r), isSome_lookup_stepEmbedded]

theorem isSome_lookup_loadCache (rs : List CityRec) (cs : List Country)
    (b : String) :
    (lookupCountry (loadCache cs rs) b).isSome = (lookupCountry cs b).isSome := by
  induction rs generalizing cs with
  | nil => rfl
  | cons r rs ih =>
    show (lookupCountry (loadCache (dynCreate cs r) rs) b).isSome = _
    rw [ih (dynCreate cs r), isSome_lookup_dynCreate]

theorem loadCache_cities_empty (rs : List CityRec) (cs : List Country)
    (h : ∀ c ∈ cs, ∀ s ∈ c.states, s.cities = []) :
    ∀ c ∈ loadCache cs rs, ∀ s ∈ c.states, s.cities = [] := by
  induction rs generalizing cs with
  | nil => exact h
  | cons r rs ih =>
    apply ih
    intro c hc s hs
    unfold dynCreate at hc
    split at hc
    · rcases mem_updateFirst _ _ _ _ hc with h2 | ⟨c2, hc2, he⟩
      · exact h c h2 s hs
      · subst he
        simp only at hs
        rcases List.mem_append.mp hs with h3 | h3
        · exact h c2 hc2 s h3
        · have h4 : s = { name := r.state_name, cities := [] } := by simpa using h3
          rw [h4]
    · exact h c hc s hs

theorem firstIdx_exactPred (t : String) (states : List State) :
    firstIdx (exactPred t) states = firstIdx (exactPredN t) (stateNames states) :=
  firstIdx_factor_name (exactPredN t) states

theorem firstIdx_relaxedPred (t : String) (states : List State) :
    firstIdx (relaxedPred t) states = firstIdx (relaxedPredN t) (stateNames states) :=
  firstIdx_factor_name (relaxedPredN t) states

theorem statesOf_eq_of_lookup (cs : List Country) (b : String) (c : Country)
    (hc : lookupCountry cs b = some c) : statesOf cs b = c.states := by
  unfold statesOf
  rw [hc]

theorem statesOf_eq_nil_of_none (cs : List Country) (b : String)
    (hc : lookupCountry cs b = none) : statesOf cs b = [] := by
  unfold statesOf
  rw [hc]

/-- Membership condition describing which records the Embedded load attaches
to state `i` of country `cc` (relative to the final state-name skeleton):
the record is for that country and the first state whose lowercased name
equals the record's lowercased state name is state `i`. -/
def attachCond (finalNames : List String) (cc : String) (i : Nat)
    (r : CityRec) : Bool :=
  r.country_code == cc
    && firstIdx (exactPredN (lowerStr r.state_name)) finalNames == some i

theorem filter_cons_false {α : Type} (p : α → Bool) (a : α) (l : List α)
    (h : p a = false) : (a :: l).filter p = l.filter p := by
  simp [List.filter_cons, h]

theorem filter_cons_true {α : Type} (p : α → Bool) (a : α) (l : List α)
    (h : p a = true) : (a :: l).filter p = a :: l.filter p := by
  simp [List.filter_cons, h]

theorem loadCache_cons (cs : List Country) (r : CityRec) (rs : List CityRec) :
    loadCache cs (r :: rs) = loadCache (dynCreate cs r) rs := rfl

theorem loadEmbedded_cons (cs : List Country) (r : CityRec) (rs : List CityRec) :
    loadEmbedded cs (r :: rs) = loadEmbedded (stepEmbedded cs r) rs := rfl

/-- Central characterization of the Embedded load: after the fold, state `i`
of country `cc` holds exactly the cities of the records selected by
`attachCond` (in record order) appended to whatever the cache-mode skeleton
holds there, provided every record's lowercased state name is
whitespace-trimmed (the hypothesis under which exact matching always wins). -/
theorem loadEmbedded_get?_states (rs : List CityRec) :
    ∀ (cs : List Country) (cc : String) (i : Nat),
      (∀ r ∈ rs, stripStr (lowerStr r.state_name) = lowerStr r.state_name) →
      (statesOf (loadEmbedded cs rs) cc).get? i =
        ((statesOf (loadCache cs rs) cc).get? i).map
          (fun s => { s with cities := s.cities ++ List.map recordCity (rs.filter (attachCond (stateNames (statesOf (loadCache cs rs) cc)) cc i)) }) := by
  induction rs with
  | nil =>
    intro cs cc i hstrip
    simp only [loadEmbedded, loadCache, List.foldl_nil, List.filter_nil,
      List.map_nil]
    rcases (statesOf cs cc).get? i with _ | s
    · rfl
    · simp
  | cons r rs ih =>
    intro cs cc i hstrip
    have hr1 : stripStr (lowerStr r.state_name) = lowerStr r.state_name :=
      hstrip r (List.mem_cons_self r rs)
    have hrs : ∀ r2 ∈ rs, stripStr (lowerStr r2.state_name) = lowerStr r2.state_name :=
      fun r2 h2 => hstrip r2 (List.mem_cons_of_mem r h2)
    rw [loadCache_cons, loadEmbedded_cons]
    rcases hlk : lookupCountry (dynCreate cs r) r.country_code with _ | c1
    · -- record's country unknown: the step is dynamic creation only
      have hstep : stepEmbedded cs r = dynCreate cs r := by
        simp [stepEmbedded, hlk]
      rw [hstep, ih (dynCreate cs r) cc i hrs]
      have hcond : attachCond
          (stateNames (statesOf (loadCache (dynCreate cs r) rs) cc)) cc i r
            = false := by
        by_cases hcc : r.country_code = cc
        · have h0 : lookupCountry (dynCreate cs r) cc = none := by
            rw [← hcc]
            exact hlk
          have h1 : statesOf (loadCache (dynCreate cs r) rs) cc = [] :=
            statesOf_eq_nil_of_none _ _ (lookup_loadCache_none rs _ cc h0)
          rw [h1]
          simp [attachCond, stateNames, firstIdx]
        · simp [attachCond, hcc]
      rw [filter_cons_false _ _ _ hcond]
    · -- record's country known: exact attach at index j
      have hsome : (lookupCountry cs r.country_code).isSome = true := by
        rw [← isSome_lookup_dynCreate cs r r.country_code, hlk]
        rfl
      have hhas := hasStateNamed_dynCreate_self cs r hsome
      have hany : c1.states.any
          (fun s => lowerStr s.name == lowerStr r.state_name) = true := by
        unfold hasStateNamed at hhas
        rw [hlk] at hhas
        exact hhas
      have hex : ∃ j, firstIdx (exactPred (lowerStr r.state_name)) c1.states
          = some j := by
        rcases ho : firstIdx (exactPred (lowerStr r.state_name)) c1.states with _ | j
        · exfalso
          have hall := (firstIdx_none_iff _ _).mp ho
          rcases List.any_eq_true.mp hany with ⟨s, hs, hps⟩
          have h5 := hall s hs
          simp only [exactPred] at h5
          rw [h5] at hps
          exact absurd hps (by simp)
        · exact ⟨j, rfl⟩
      rcases hex with ⟨j, hj⟩
      have hidx : findStateIdxIn c1.states r.state_name = some j := by
        unfold findStateIdxIn
        rw [hr1, hj]
      have hjlt : j < c1.states.length := firstIdx_lt_length _ _ _ hj
      have hstep : stepEmbedded cs r
          = attachCity (dynCreate cs r) r.country_code j (recordCity r) := by
        simp [stepEmbedded, hlk, hidx]
      rw [hstep,
        ih (attachCity (dynCreate cs r) r.country_code j (recordCity r)) cc i hrs,
        loadCache_attachCity rs (dynCreate cs r) r.country_code j (recordCity r)
          c1 hlk hjlt]
      by_cases hcc : cc = r.country_code
      · subst hcc
        rcases lookup_loadCache_self rs (dynCreate cs r) r.country_code c1 hlk
          with ⟨ext, hFl⟩
        have hFst : statesOf (loadCache (dynCreate cs r) rs) r.country_code
            = c1.states ++ ext := by
          rw [statesOf_eq_of_lookup _ _ _ hFl]
        have hAst : statesOf
            (attachCity (loadCache (dynCreate cs r) rs) r.country_code j
              (recordCity r)) r.country_code
            = appendCityAt (c1.states ++ ext) j (recordCity r) := by
          rw [statesOf_eq_of_lookup _ _ _
            (lookup_attachCity_self _ r.country_code j (recordCity r) _ hFl)]
        rw [hAst, hFst, stateNames_appendCityAt]
        have hjF : firstIdx (exactPredN (lowerStr r.state_name))
            (stateNames (c1.states ++ ext)) = some j := by
          have h1 : firstIdx (exactPredN (lowerStr r.state_name))
              (stateNames c1.states) = some j := by
            rw [← firstIdx_exactPred]
            exact hj
          have h2 : stateNames (c1.states ++ ext)
              = stateNames c1.states ++ stateNames ext := by
            simp [stateNames]
          rw [h2]
          exact firstIdx_append _ _ _ _ h1
        rw [get?_appendCityAt]
        by_cases hij : i = j
        · subst hij
          have hcr : attachCond (stateNames (c1.states ++ ext)) r.country_code i r
              = true := by
            simp [attachCond, hjF]
          rw [if_pos rfl, filter_cons_true _ _ _ hcr]
          rcases (c1.states ++ ext).get? i with _ | s
          · rfl
          · simp [List.append_assoc]
        · have hcr : attachCond (stateNames (c1.states ++ ext)) r.country_code i r
              = false := by
            simp [attachCond, hjF]
            intro h6
            exact absurd h6.symm hij
          rw [if_neg hij, filter_cons_false _ _ _ hcr]
      · have hA : statesOf
            (attachCity (loadCache (dynCreate cs r) rs) r.country_code j
              (recordCity r)) cc
            = statesOf (loadCache (dynCreate cs r) rs) cc := by
          unfold statesOf
          rw [lookup_attachCity_ne _ r.country_code cc j _ hcc]
        rw [hA]
        have hcr : attachCond
            (stateNames (statesOf (loadCache (dynCreate cs r) rs) cc)) cc i r
              = false := by
          have h7 : (r.country_code == cc) = false := by
            simpa using fun h => hcc h.symm
          simp [attachCond, h7]
        rw [filter_cons_false _ _ _ hcr]

theorem storeGet_set_other (st : Store) (k k2 : String) (v : StoreVal)
    (h : k ≠ k2) : storeGet (storeSet st k2 v) k = storeGet st k := by
  have h2 : (k2 == k) = false := by
    simpa using fun he => h he.symm
  simp [storeGet, storeSet, List.find?, h2]

theorem storeGet_foldSet (keys : List String) (v : String → StoreVal) :
    ∀ (st : Store) (k : String),
      storeGet (keys.foldl (fun acc k2 => storeSet acc k2 (v k2)) st) k =
        if k ∈ keys then some (v k) else storeGet st k := by
  induction keys with
  | nil =>
    intro st k
    simp
  | cons k2 keys ih =>
    intro st k
    show storeGet (keys.foldl _ (storeSet st k2 (v k2))) k = _
    rw [ih]
    by_cases hk : k ∈ keys
    · simp [hk]
    · by_cases hk2 : k = k2
      · subst hk2
        simp [hk, storeGet_set_same]
      · simp [hk, hk2, storeGet_set_other st k k2 (v k2) hk2]

theorem mem_foldDedup (l : List String) :
    ∀ (acc : List String) (x : String),
      (x ∈ l.foldl (fun acc k => if acc.contains k then acc else acc ++ [k]) acc)
        ↔ (x ∈ acc ∨ x ∈ l) := by
  induction l with
  | nil =>
    intro acc x
    simp
  | cons k l ih =>
    intro acc x
    show (x ∈ l.foldl _ (if acc.contains k then acc else acc ++ [k])) ↔ _
    rw [ih]
    by_cases hc : acc.contains k
    · have hkacc : k ∈ acc := by simpa using hc
      simp only [hc, if_true, List.mem_cons]
      constructor
      · intro h
        tauto
      · rintro (h | h | h)
        · tauto
        · subst h
          tauto
        · tauto
    · have hc2 : acc.contains k = false := by
        simpa using hc
      simp only [hc2, Bool.false_eq_true, if_false, List.mem_append,
        List.mem_singleton, List.mem_cons]
      tauto

theorem mem_groupKeys (rs : List CityRec) (k : String) :
    k ∈ groupKeysOf rs ↔ ∃ r ∈ rs, recordKey r = k := by
  unfold groupKeysOf firstDedup
  rw [mem_foldDedup]
  simp [List.mem_map]

theorem groupOf_ne_nil_iff (rs : List CityRec) (k : String) :
    groupOf rs k ≠ [] ↔ ∃ r ∈ rs, recordKey r = k := by
  unfold groupOf
  constructor
  · intro h
    rcases hg : rs.filter (fun r => recordKey r == k) with _ | ⟨r, rest⟩
    · exact absurd hg h
    · have hr : r ∈ rs.filter (fun r => recordKey r == k) := by
        rw [hg]
        exact List.mem_cons_self r rest
      have := List.mem_filter.mp hr
      exact ⟨r, this.1, by simpa using this.2⟩
  · rintro ⟨r, hr, he⟩ hnil
    have : r ∈ rs.filter (fun r => recordKey r == k) :=
      List.mem_filter.mpr ⟨hr, by simp [he]⟩
    rw [hnil] at this
    simp at this

theorem storeGet_populate_empty (rs : List CityRec) (k : String)
    (hk : k ≠ sentinelKey) :
    storeGet (populate [] rs) k =
      if groupOf rs k = [] then none
      else some (StoreVal.recs (groupOf rs k)) := by
  have h0 : truthyOpt (storeGet ([] : Store) sentinelKey) = false := rfl
  unfold populate
  rw [h0]
  simp only [Bool.false_eq_true, if_false]
  rw [storeGet_set_other _ _ _ _ hk,
    storeGet_foldSet (groupKeysOf rs) (fun k2 => StoreVal.recs (groupOf rs k2)) [] k]
  by_cases hg : k ∈ groupKeysOf rs
  · have hne : groupOf rs k ≠ [] :=
      (groupOf_ne_nil_iff rs k).mpr ((mem_groupKeys rs k).mp hg)
    simp [hg, hne]
  · have hnil : groupOf rs k = [] := by
      by_contra hne
      exact hg ((mem_groupKeys rs k).mpr ((groupOf_ne_nil_iff rs k).mp hne))
    simp [hg, hnil, storeGet]

theorem append_colon_inj (a : List Char) :
    ∀ (b x y : List Char), ':' ∉ a → ':' ∉ b →
      a ++ ':' :: x = b ++ ':' :: y → a = b ∧ x = y := by
  induction a with
  | nil =>
    intro b x y _ hb h
    cases b with
    | nil => simpa using h
    | cons d b2 =>
      exfalso
      simp only [List.nil_append, List.cons_append, List.cons.injEq] at h
      exact hb (h.1 ▸ List.mem_cons_self d b2)
  | cons c a2 ih =>
    intro b x y ha hb h
    cases b with
    | nil =>
      exfalso
      simp only [List.nil_append, List.cons_append, List.cons.injEq] at h
      exact ha (h.1 ▸ List.mem_cons_self c a2)
    | cons d b2 =>
      simp only [List.cons_append, List.cons.injEq] at h
      have ha2 : ':' ∉ a2 := fun hm => ha (List.mem_cons_of_mem _ hm)
      have hb2 : ':' ∉ b2 := fun hm => hb (List.mem_cons_of_mem _ hm)
      rcases ih b2 x y ha2 hb2 h.2 with ⟨he, hxy⟩
      exact ⟨by rw [h.1, he], hxy⟩

theorem string_data_inj (x y : String) (h : x.data = y.data) : x = y := by
  cases x
  cases y
  simp only at h
  rw [h]

theorem cityKey_inj (A B X Y : String)
    (hA : ':' ∉ A.data) (hB : ':' ∉ B.data)
    (h : ("cities:" ++ A ++ ":" ++ X : String) = "cities:" ++ B ++ ":" ++ Y) :
    A = B ∧ X = Y := by
  have hd := congrArg String.data h
  simp only [String.data_append] at hd
  simp only [List.append_assoc, List.singleton_append] at hd
  have hd2 : A.data ++ ':' :: X.data = B.data ++ ':' :: Y.data :=
    List.append_cancel_left hd
  rcases append_colon_inj A.data B.data X.data Y.data hA hB hd2 with ⟨h1, h2⟩
  exact ⟨string_data_inj A B h1, string_data_inj X Y h2⟩

theorem cityKey_ne_sentinel (cc nm : String) : cityKey cc nm ≠ sentinelKey := by
  intro h
  have hd := congrArg (fun s => s.data.head?) h
  have hc : ("cities:" : String).data = ['c','i','t','i','e','s',':'] := rfl
  simp only [cityKey, sentinelKey, String.data_append, hc] at hd
  simp at hd

theorem keyNorm_eq_of_lower (a b : String) (h : lowerStr a = lowerStr b) :
    keyNorm a = keyNorm b := by
  unfold keyNorm
  rw [h]

theorem findStateIdxIn_lt (states : List State) (q : String) (i : Nat)
    (h : findStateIdxIn states q = some i) : i < states.length := by
  unfold findStateIdxIn at h
  rcases he : firstIdx (exactPred (stripStr (lowerStr q))) states with _ | j
  · rw [he] at h
    exact firstIdx_lt_length _ _ _ h
  · rw [he] at h
    have hji : j = i := by simpa using h
    subst hji
    exact firstIdx_lt_length _ _ _ he

/-- Resolution firstness: whichever branch resolved state `i`, index `i` is
the first position carrying that state's lowercased name. -/
theorem findStateIdxIn_first_name (states : List State) (q : String) (i : Nat)
    (h : findStateIdxIn states q = some i) :
    ∃ s, states.get? i = some s ∧
      firstIdx (exactPredN (lowerStr s.name)) (stateNames states) = some i := by
  unfold findStateIdxIn at h
  rcases he : firstIdx (exactPred (stripStr (lowerStr q))) states with _ | i2
  · rw [he] at h
    rcases (firstIdx_some_iff _ _ _).mp h with ⟨⟨s, hsi, hps⟩, hlt⟩
    refine ⟨s, hsi, ?_⟩
    rw [← firstIdx_exactPred]
    refine (firstIdx_some_iff _ _ _).mpr ⟨⟨s, hsi, by simp [exactPred]⟩, ?_⟩
    intro j hj
    rcases hlt j hj with ⟨s2, hs2, hp2⟩
    refine ⟨s2, hs2, ?_⟩
    rcases hq : exactPred (lowerStr s.name) s2 with _ | _
    · rfl
    · exfalso
      have heq : lowerStr s2.name = lowerStr s.name := by
        simpa [exactPred] using hq
      have h9 : relaxedPred (stripStr (lowerStr q)) s2 = true := by
        unfold relaxedPred at hps ⊢
        rw [heq]
        exact hps
      rw [h9] at hp2
      exact absurd hp2 (by simp)
  · rw [he] at h
    have hii : i2 = i := by simpa using h
    subst hii
    rcases (firstIdx_some_iff _ _ _).mp he with ⟨⟨s, hsi, hps⟩, _⟩
    refine ⟨s, hsi, ?_⟩
    have htar : lowerStr s.name = stripStr (lowerStr q) := by
      simpa [exactPred] using hps
    rw [← firstIdx_exactPred, htar]
    exact he

theorem stateNames_loadEmbedded (rs : List CityRec) (cs : List Country)
    (cc : String)
    (hstrip : ∀ r ∈ rs, stripStr (lowerStr r.state_name) = lowerStr r.state_name) :
    stateNames (statesOf (loadEmbedded cs rs) cc) =
      stateNames (statesOf (loadCache cs rs) cc) := by
  apply List.ext
  intro n
  unfold stateNames
  rw [List.get?_map, List.get?_map, loadEmbedded_get?_states rs cs cc n hstrip]
  rcases (statesOf (loadCache cs rs) cc).get? n with _ | s
  · rfl
  · rfl

theorem findStateIdxIn_congr_names (s1 s2 : List State) (q : String)
    (h : stateNames s1 = stateNames s2) :
    findStateIdxIn s1 q = findStateIdxIn s2 q := by
  unfold findStateIdxIn
  rw [firstIdx_exactPred, firstIdx_exactPred, firstIdx_relaxedPred,
    firstIdx_relaxedPred, h]

/-- Attachment condition versus storage-key match: for a record with an
uppercase colon-free country code, assuming the queried code is colon-free,
the key normalization separates the record's state name from the resolved
state's name, and index `i` is the first position carrying the resolved
state's lowercased name, a record attaches to state `i` exactly when its
population-time key equals the lookup-time key. -/
theorem attachCond_eq_keyMatch (names : List String) (cc : String) (i : Nat)
    (r : CityRec) (nm : String)
    (hup : upperStr r.country_code = r.country_code)
    (hinj : keyNorm r.state_name = keyNorm nm →
      lowerStr r.state_name = lowerStr nm)
    (hkr : ':' ∉ r.country_code.data) (hkc : ':' ∉ cc.data)
    (hni : names.get? i = some nm)
    (hfirst : firstIdx (exactPredN (lowerStr nm)) names = some i) :
    attachCond names cc i r = (recordKey r == cityKey cc nm) := by
  rcases hkm : (recordKey r == cityKey cc nm) with _ | _
  · rcases hA : attachCond names cc i r with _ | _
    · rfl
    · exfalso
      have hA2 := hA
      unfold attachCond at hA2
      rw [Bool.and_eq_true] at hA2
      obtain ⟨hcode, hidx⟩ := hA2
      have hcode2 : r.country_code = cc := by simpa using hcode
      have hidx2 : firstIdx (exactPredN (lowerStr r.state_name)) names
          = some i := by simpa using hidx
      rcases (firstIdx_some_iff _ _ _).mp hidx2 with ⟨⟨a, hai, hpa⟩, _⟩
      have ha_nm : a = nm := by
        rw [hai] at hni
        simpa using hni
      subst ha_nm
      have hlow : lowerStr a = lowerStr r.state_name := by
        simpa [exactPredN] using hpa
      have hkey : recordKey r = cityKey cc a := by
        unfold recordKey cityKey
        rw [hup, hcode2, keyNorm_eq_of_lower r.state_name a hlow.symm]
      rw [hkey] at hkm
      simp at hkm
  · have hkey : recordKey r = cityKey cc nm := by simpa using hkm
    unfold recordKey cityKey at hkey
    have hupd : ':' ∉ (upperStr r.country_code).data := by
      rw [hup]
      exact hkr
    rcases cityKey_inj (upperStr r.country_code) cc (keyNorm r.state_name)
      (keyNorm nm) hupd hkc hkey with ⟨hcd, hkn⟩
    have hcode2 : r.country_code = cc := by
      rw [← hup]
      exact hcd
    have hlow := hinj hkn
    simp [attachCond, hcode2, hlow, hfirst]

/-- C2 amended.  For a fixed dataset in which every master state starts with
no inline cities, every city record's state name is trim-invariant after
lowercasing, record country codes are uppercase and colon-free, the queried
country code is colon-free, and the space-to-underscore key normalization
does not conflate a record's state name with a distinct loaded state name,
get-cities returns the same answer (the same city list, hence the same set
of city names) from the Embedded variant and from the Cache-Aside variant
populated by the one-time protocol. -/
theorem C2_backend_equivalence (master : List Country) (rs : List CityRec)
    (code q : String)
    (hm : ∀ c ∈ master, ∀ s ∈ c.states, s.cities = [])
    (h1 : ∀ r ∈ rs, stripStr (lowerStr r.state_name) = lowerStr r.state_name)
    (h2 : ∀ r ∈ rs, upperStr r.country_code = r.country_code)
    (h3 : ∀ r ∈ rs, ∀ c ∈ loadCache master rs, ∀ s ∈ c.states,
        keyNorm r.state_name = keyNorm s.name →
        lowerStr r.state_name = lowerStr s.name)
    (h4 : ∀ r ∈ rs, ':' ∉ r.country_code.data)
    (h5 : ':' ∉ (upperStr code).data) :
    get_cities_embedded (loadEmbedded master rs) code q =
      get_cities_cache (loadCache master rs) (populate [] rs) code q := by
  simp only [get_cities_embedded, get_cities_cache]
  rw [find_state_relaxedly_eq_idx, find_state_relaxedly_eq_idx]
  rcases hle : lookupCountry (loadEmbedded master rs) (upperStr code) with _ | cE
  · have hlc : lookupCountry (loadCache master rs) (upperStr code) = none := by
      have e1 := isSome_lookup_loadEmbedded rs master (upperStr code)
      have e2 := isSome_lookup_loadCache rs master (upperStr code)
      rw [hle] at e1
      rcases hx : lookupCountry (loadCache master rs) (upperStr code) with _ | c
      · rfl
      · rw [hx] at e2
        rw [← e1] at e2
        simp at e2
    rw [hlc]
    rfl
  · have hlcEx : ∃ cC, lookupCountry (loadCache master rs) (upperStr code)
        = some cC := by
      have e1 := isSome_lookup_loadEmbedded rs master (upperStr code)
      have e2 := isSome_lookup_loadCache rs master (upperStr code)
      rw [hle] at e1
      rw [← e1] at e2
      rcases hx : lookupCountry (loadCache master rs) (upperStr code) with _ | c
      · rw [hx] at e2
        simp at e2
      · exact ⟨c, rfl⟩
    rcases hlcEx with ⟨cC, hlc⟩
    have hCmem : cC ∈ loadCache master rs := List.mem_of_find?_eq_some hlc
    rw [hlc]
    simp only [Option.some_bind]
    have hnames : stateNames cE.states = stateNames cC.states := by
      have h6 := stateNames_loadEmbedded rs master (upperStr code) h1
      rw [statesOf_eq_of_lookup _ _ _ hle, statesOf_eq_of_lookup _ _ _ hlc] at h6
      exact h6
    have hidx : findStateIdxIn cE.states q = findStateIdxIn cC.states q :=
      findStateIdxIn_congr_names _ _ q hnames
    rcases hfi : findStateIdxIn cC.states q with _ | i
    · rw [hidx, hfi]
      rfl
    · rw [hidx, hfi]
      have hltC : i < cC.states.length := findStateIdxIn_lt _ _ _ hfi
      have hgC : cC.states.get? i = some (cC.states.get ⟨i, hltC⟩) :=
        List.get?_eq_get hltC
      have hsmem : cC.states.get ⟨i, hltC⟩ ∈ cC.states := List.get?_mem hgC
      have hempty : (cC.states.get ⟨i, hltC⟩).cities = [] :=
        loadCache_cities_empty rs master hm cC hCmem _ hsmem
      have hmain := loadEmbedded_get?_states rs master (upperStr code) i h1
      rw [statesOf_eq_of_lookup _ _ _ hle, statesOf_eq_of_lookup _ _ _ hlc,
        hgC] at hmain
      rcases findStateIdxIn_first_name cC.states q i hfi with ⟨s0, hs0, hfirst⟩
      have hs0C : s0 = cC.states.get ⟨i, hltC⟩ := by
        rw [hgC] at hs0
        have h8 := hs0
        simp only [Option.some.injEq] at h8
        exact h8.symm
      subst hs0C
      have hni : (stateNames cC.states).get? i
          = some (cC.states.get ⟨i, hltC⟩).name := by
        unfold stateNames
        rw [List.get?_map, hgC]
        rfl
      have hfcong : rs.filter (attachCond (stateNames cC.states) (upperStr code) i)
          = rs.filter (fun r => recordKey r
              == cityKey (upperStr code) (cC.states.get ⟨i, hltC⟩).name) := by
        apply List.filter_congr
        intro r hr
        exact attachCond_eq_keyMatch (stateNames cC.states) (upperStr code) i r
          (cC.states.get ⟨i, hltC⟩).name (h2 r hr)
          (h3 r hr cC hCmem _ hsmem) (h4 r hr) h5 hni hfirst
      have hgrp : rs.filter (fun r => recordKey r
            == cityKey (upperStr code) (cC.states.get ⟨i, hltC⟩).name)
          = groupOf rs (cityKey (upperStr code) (cC.states.get ⟨i, hltC⟩).name) :=
        rfl
      have hstore := storeGet_populate_empty rs
        (cityKey (upperStr code) (cC.states.get ⟨i, hltC⟩).name)
        (cityKey_ne_sentinel _ _)
      simp only [Option.some_bind]
      rw [hgC, hmain]
      simp only [Option.map_some']
      by_cases hge : groupOf rs
          (cityKey (upperStr code) (cC.states.get ⟨i, hltC⟩).name) = []
      · rw [if_pos hge] at hstore
        rw [hstore, hfcong, hgrp, hge, hempty]
        simp
      · rw [if_neg hge] at hstore
        rw [hstore, hfcong, hgrp, hempty]
        simp

/-- Demo master dataset for the C2 amended-claim witness. -/
def c2wMaster : List Country :=
  [{ code := "XX", name := "Xanadu", states := [{ name := "Alpha" }] }]

/-- Demo record set for the C2 amended-claim witness. -/
def c2wRecords : List CityRec :=
  [{ country_code := "XX", state_name := "Alpha", name := "Paris" }]

/-- Witness for the amended C2: on a well-formed demo dataset both variants
agree on get-cities("xx", "alpha"). -/
theorem C2_witness :
    get_cities_embedded (loadEmbedded c2wMaster c2wRecords) "xx" "alpha" =
      get_cities_cache (loadCache c2wMaster c2wRecords)
        (populate [] c2wRecords) "xx" "alpha" :=
  C2_backend_equivalence c2wMaster c2wRecords "xx" "alpha" (by decide)
    (by decide) (by decide) (by decide) (by decide) (by decide)

/-- Lightweight search-index entry (src/main.py lines 183-189): `n` is the
city name, `nl` the local name, `s` the state name, `c` the country code. -/
structure IndexEntry where
  n : String
  nl : String
  s : String
  c : String
deriving DecidableEq

/-- Search-index construction (src/main.py lines 179-189): exactly one entry
is appended per input record, unconditionally — also for records whose
country code matches no master country. -/
def buildCityIndex (rs : List CityRec) : List IndexEntry :=
  rs.map (fun r =>
    { n := r.name, nl := r.name_local, s := r.state_name, c := r.country_code })

/-- Dropdown projection of a country (src/main.py lines 229-234, 288-293). -/
def projBase (c : Country) : CountryBase :=
  { code := c.code, name := c.name, phone_code := c.phone_code, flag := c.flag }

/-- src/main.py lines 278-298, `search_countries`: empty normalized query
short-circuits to `[]`, else case-insensitive substring filter on country
names, truncated to 20. -/
def search_countries (cs : List Country) (q : String) : List CountryBase :=
  let query := stripStr (lowerStr q)
  if query.isEmpty then []
  else ((cs.filter (fun c => strContains query (lowerStr c.name))).map projBase).take 20

/-- Result row of `search_states` (src/main.py lines 309-319). -/
structure StateHit where
  name : String
  country_code : String
  country_name : String
deriving DecidableEq

/-- Untruncated state-search scan (the comprehension of src/main.py lines
309-319); the `if country.states` truthiness guard skips empty lists, which
the flattened iteration does anyway. -/
def stateHitsOf (cs : List Country) (query : String) : List StateHit :=
  cs.bind (fun c =>
    if c.states.isEmpty then []
    else (c.states.filter (fun s => strContains query (lowerStr s.name))).map
      (fun s => { name := s.name, country_code := c.code, country_name := c.name }))

/-- src/main.py lines 300-321, `search_states`. -/
def search_states (cs : List Country) (q : String) : List StateHit :=
  let query := stripStr (lowerStr q)
  if query.isEmpty then []
  else (stateHitsOf cs query).take 20

/-- Result row of `search_cities` (both branches); latitude/longitude
omitted (floats, never inspected by a claim). -/
structure CityHit where
  name : String
  name_local : String
  state_name : String
  country_code : String
  country_name : String
deriving DecidableEq

/-- Index-branch match predicate (src/main.py line 337):
`query in city["n"].lower() or (city["nl"] and query in city["nl"].lower())`. -/
def cityIndexMatch (query : String) (e : IndexEntry) : Bool :=
  strContains query (lowerStr e.n)
    || (!e.nl.isEmpty && strContains query (lowerStr e.nl))

/-- Index-branch result row (src/main.py lines 339-347). -/
def mkIndexHit (cs : List Country) (e : IndexEntry) : CityHit :=
  { name := e.n, name_local := e.nl, state_name := e.s, country_code := e.c,
    country_name :=
      match lookupCountry cs e.c with
      | some c => c.name
      | none => e.c }

/-- Bounded collection with early exit: the loop body appends each match and
returns as soon as `limit` results are collected. -/
def collectUpTo {α : Type} (limit : Nat) (p : α → Bool) : List α → List α
  | [] => []
  | x :: xs =>
    if limit = 0 then []
    else if p x then x :: collectUpTo (limit - 1) p xs
    else collectUpTo limit p xs

/-- src/main.py lines 323-350, `search_cities` in Cache-Aside mode (search
over the lightweight index, early return at 50). -/
def search_cities_index (cs : List Country) (idx : List IndexEntry)
    (q : String) : List CityHit :=
  let query := stripStr (lowerStr q)
  if query.isEmpty then []
  else (collectUpTo 50 (cityIndexMatch query) idx).map (mkIndexHit cs)

/-- Embedded-branch match predicate (src/main.py line 360):
`query in city.name.lower() or (city.name_local and query in city.name_local)`
— note the source does NOT lowercase `city.name_local` here. -/
def cityMemMatch (query : String) (c : City) : Bool :=
  strContains query (lowerStr c.name)
    || (!c.name_local.isEmpty && strContains query c.name_local)

/-- Flattened country/state/city iteration of src/main.py lines 353-359; the
truthiness guards on empty state and city lists are no-ops under flattening. -/
def allCityTriples (cs : List Country) : List (Country × State × City) :=
  cs.bind (fun c => c.states.bind (fun s => s.cities.map (fun ci => (c, s, ci))))

/-- Embedded-branch result row (src/main.py lines 361-369). -/
def mkMemHit (t : Country × State × City) : CityHit :=
  { name := t.2.2.name, name_local := t.2.2.name_local,
    state_name := t.2.1.name, country_code := t.1.code,
    country_name := t.1.name }

/-- src/main.py lines 323-373, `search_cities` in Embedded mode (global scan
over the in-memory hierarchy, early return at 50). -/
def search_cities_mem (cs : List Country) (q : String) : List CityHit :=
  let query := stripStr (lowerStr q)
  if query.isEmpty then []
  else (collectUpTo 50 (fun t => cityMemMatch query t.2.2)
    (allCityTriples cs)).map mkMemHit

/-- src/main.py lines 236-247, `get_states`: uppercase the code, 404 for an
unknown country, else the state list (`or []` collapses None and empty). -/
def get_states (cs : List Country) (country_code : String) :
    Option (List State) :=
  match lookupCountry cs (upperStr country_code) with
  | none => none
  | some c => some c.states

/-- Region projection of a country (src/main.py lines 405-412). -/
def projRegion (c : Country) : CountryWithRegion :=
  { code := c.code, name := c.name, phone_code := c.phone_code, flag := c.flag,
    region := c.region, subregion := c.subregion }

/-- Stable insertion into a name-sorted list: a new element goes after every
element whose name is `≤` its own, matching Python's stable `sorted`. -/
def insertByName (x : CountryWithRegion) :
    List CountryWithRegion → List CountryWithRegion
  | [] => [x]
  | y :: ys => if y.name ≤ x.name then y :: insertByName x ys else x :: y :: ys

/-- Stable insertion sort by country name ascending
(`sorted(results, key=lambda x: x.name)`). -/
def sortByName (l : List CountryWithRegion) : List CountryWithRegion :=
  l.foldl (fun acc x => insertByName x acc) []

/-- src/main.py lines 389-417, `get_countries_by_region`: case-insensitive
region-key match, 404 when none matches, else member countries (codes drawn
from the region entry) sorted by name ascending.  Regions are modelled as
(name, member-country-codes) pairs; subregion labels are never read. -/
def get_countries_by_region (cs : List Country)
    (regions : List (String × List String)) (region : String) :
    Option (List CountryWithRegion) :=
  match regions.find? (fun kv => lowerStr kv.1 == lowerStr region) with
  | none => none
  | some kv =>
    some (sortByName ((cs.filter (fun c => kv.2.contains c.code)).map projRegion))

/-- Python `str.lstrip`: drop leading whitespace only. -/
def lstripStr (s : String) : String := ⟨s.data.dropWhile isWS⟩

/-- src/main.py lines 419-438, `search_by_phone_code`: strip the input,
prepend '+' unless already present, match countries whose phone code equals
or starts with the normalized code, truncate to 10. -/
def search_by_phone_code (cs : List Country) (code : String) :
    List CountryBase :=
  let sc := stripStr code
  let search_code := if strStartsWith sc "+" then sc else "+" ++ sc
  ((cs.filter (fun c =>
      c.phone_code == search_code
        || strStartsWith c.phone_code search_code)).map projBase).take 10

/-- C6.  The city search index holds exactly one entry per input record —
also for records whose country code matches no master country — so its
length always equals the input record count: no record is dropped or
duplicated. -/
theorem C6_search_index_length (rs : List CityRec) :
    (buildCityIndex rs).length = rs.length :=
  List.length_map rs _

/-- Early-exit collection equals filter-then-truncate. -/
theorem collectUpTo_eq {α : Type} (p : α → Bool) :
    ∀ (l : List α) (limit : Nat),
      collectUpTo limit p l = (l.filter p).take limit := by
  intro l
  induction l with
  | nil =>
    intro limit
    simp [collectUpTo]
  | cons x xs ih =>
    intro limit
    by_cases h0 : limit = 0
    · subst h0
      simp [collectUpTo]
    · rcases hp : p x with _ | _
      · rw [show collectUpTo limit p (x :: xs) = collectUpTo limit p xs from by
          simp [collectUpTo, h0, hp]]
        rw [ih, filter_cons_false _ _ _ hp]
      · rw [show collectUpTo limit p (x :: xs)
            = x :: collectUpTo (limit - 1) p xs from by
          simp [collectUpTo, h0, hp]]
        rw [ih, filter_cons_true _ _ _ hp]
        rcases limit with _ | n
        · exact absurd rfl h0
        · simp

/-- C5.  For every non-empty normalized query, city search (both backend
branches) returns the first 50 matches in input order — exactly
`min 50 (number of matches)` results — country search truncates to 20, state
search to 20, and phone-code search to 10, each over its match scan in input
order. -/
theorem C5_search_truncation (cs : List Country) (idx : List IndexEntry)
    (q cphone : String) (h : (stripStr (lowerStr q)).isEmpty = false) :
    search_cities_index cs idx q
        = ((idx.filter (cityIndexMatch (stripStr (lowerStr q)))).take 50).map
            (mkIndexHit cs)
    ∧ (search_cities_index cs idx q).length
        = min 50 (idx.filter (cityIndexMatch (stripStr (lowerStr q)))).length
    ∧ search_cities_mem cs q
        = (((allCityTriples cs).filter
            (fun t => cityMemMatch (stripStr (lowerStr q)) t.2.2)).take 50).map
              mkMemHit
    ∧ (search_cities_mem cs q).length
        = min 50 ((allCityTriples cs).filter
            (fun t => cityMemMatch (stripStr (lowerStr q)) t.2.2)).length
    ∧ search_countries cs q
        = ((cs.filter (fun c =>
            strContains (stripStr (lowerStr q)) (lowerStr c.name))).map
              projBase).take 20
    ∧ (search_countries cs q).length
        = min 20 (cs.filter (fun c =>
            strContains (stripStr (lowerStr q)) (lowerStr c.name))).length
    ∧ search_states cs q = (stateHitsOf cs (stripStr (lowerStr q))).take 20
    ∧ (search_states cs q).length
        = min 20 (stateHitsOf cs (stripStr (lowerStr q))).length
    ∧ (search_by_phone_code cs cphone).length
        = min 10 (cs.filter (fun c =>
            c.phone_code == (if strStartsWith (stripStr cphone) "+"
              then stripStr cphone else "+" ++ stripStr cphone)
            || strStartsWith c.phone_code
              (if strStartsWith (stripStr cphone) "+"
                then stripStr cphone else "+" ++ stripStr cphone))).length := by
  have hq : (stripStr (lowerStr q)).isEmpty = false := h
  refine ⟨?_, ?_, ?_, ?_, ?_, ?_, ?_, ?_, ?_⟩
  · simp only [search_cities_index, hq, Bool.false_eq_true, if_false,
      collectUpTo_eq]
  · simp only [search_cities_index, hq, Bool.false_eq_true, if_false,
      collectUpTo_eq, List.length_map, List.length_take]
  · simp only [search_cities_mem, hq, Bool.false_eq_true, if_false,
      collectUpTo_eq]
  · simp only [search_cities_mem, hq, Bool.false_eq_true, if_false,
      collectUpTo_eq, List.length_map, List.length_take]
  · simp only [search_countries, hq, Bool.false_eq_true, if_false]
  · simp only [search_countries, hq, Bool.false_eq_true, if_false,
      List.length_take, List.length_map]
  · simp only [search_states, hq, Bool.false_eq_true, if_false]
  · simp only [search_states, hq, Bool.false_eq_true, if_false,
      List.length_take]
  · simp only [search_by_phone_code, List.length_take, List.length_map]

/-- Witness for C5: evaluation at a concrete non-empty query over a concrete
dataset, with the hypothesis discharged by computation. -/
theorem C5_witness :
    search_cities_index demoCountries [] "paris"
        = (((([] : List IndexEntry)).filter
            (cityIndexMatch (stripStr (lowerStr "paris")))).take 50).map
              (mkIndexHit demoCountries) :=
  (C5_search_truncation demoCountries [] "paris" "1" rfl).1

/-- Dataset exhibiting the embedded-branch name_local case bug (C4): one
city whose local name matches the query only case-insensitively. -/
def c4Countries : List Country :=
  [{ code := "AA", name := "Aland",
     states := [{ name := "S1", cities := [{ name := "X", name_local := "AB" }] }] }]

/-- Index entries corresponding to `c4Countries` for the Cache-Aside branch. -/
def c4Index : List IndexEntry :=
  [{ n := "X", nl := "AB", s := "S1", c := "AA" }]

/-- C4.  Divergence witness for the code bug: for query "ab" the Cache-Aside
(index) branch lowercases `name_local` and matches the city, while the
Embedded branch compares `name_local` without lowercasing (src/main.py line
360) and misses it — the two branches do not match the same way. -/
theorem C4_code_bug_eval :
    search_cities_index c4Countries c4Index "ab"
        = [{ name := "X", name_local := "AB", state_name := "S1",
             country_code := "AA", country_name := "Aland" }]
    ∧ search_cities_mem c4Countries "ab" = []
    ∧ cityIndexMatch "ab" { n := "X", nl := "AB", s := "S1", c := "AA" } = true
    ∧ cityMemMatch "ab" { name := "X", name_local := "AB" } = false := by
  refine ⟨by decide, by decide, by decide, by decide⟩

/-- C7.  get-states uppercases the code and returns NotFound exactly when
the uppercased code is unknown; for a known country it never fails and
returns precisely that country's state list (empty when the country has no
states), every member of which belongs to the country. -/
theorem C7_get_states_spec (cs : List Country) (code : String) :
    (get_states cs code = none ↔ lookupCountry cs (upperStr code) = none)
    ∧ ∀ l, get_states cs code = some l →
        ∃ c, lookupCountry cs (upperStr code) = some c ∧ l = c.states ∧
          ∀ s ∈ l, s ∈ c.states := by
  rcases hc : lookupCountry cs (upperStr code) with _ | c
  · constructor
    · simp [get_states, hc]
    · intro l hl
      rw [show get_states cs code = none from by simp [get_states, hc]] at hl
      exact absurd hl (by simp)
  · constructor
    · simp [get_states, hc]
    · intro l hl
      rw [show get_states cs code = some c.states from by simp [get_states, hc]]
        at hl
      have hlc : l = c.states := by simpa using hl.symm
      exact ⟨c, rfl, hlc, fun s hs => hlc ▸ hs⟩

/-- Witness for C7: a known lowercase code resolves after uppercasing and
yields exactly the demo country's states. -/
theorem C7_witness :
    ∃ c, lookupCountry demoCountries (upperStr "us") = some c
      ∧ [({ name := "California" } : State)] = c.states
      ∧ ∀ s ∈ [({ name := "California" } : State)], s ∈ c.states :=
  (C7_get_states_spec demoCountries "us").2 [{ name := "California" }] rfl

/-- C9.  A query that is empty or whitespace-only after normalization makes
every search (countries, states, and both city-search branches) return the
empty list instead of matching everything by empty-substring containment. -/
theorem C9_empty_query (cs : List Country) (idx : List IndexEntry)
    (q : String) (h : stripStr (lowerStr q) = "") :
    search_countries cs q = [] ∧ search_states cs q = []
    ∧ search_cities_index cs idx q = [] ∧ search_cities_mem cs q = [] := by
  have hE : (stripStr (lowerStr q)).isEmpty = true := by
    rw [h]
    rfl
  refine ⟨?_, ?_, ?_, ?_⟩
  · simp [search_countries, hE]
  · simp [search_states, hE]
  · simp [search_cities_index, hE]
  · simp [search_cities_mem, hE]

/-- Witness for C9: the whitespace-only query "  " produces empty results. -/
theorem C9_witness :
    search_countries demoCountries "  " = []
    ∧ search_states demoCountries "  " = []
    ∧ search_cities_index demoCountries [] "  " = []
    ∧ search_cities_mem demoCountries "  " = [] :=
  C9_empty_query demoCountries [] "  " rfl

theorem mem_insertByName (x z : CountryWithRegion) (l : List CountryWithRegion) :
    z ∈ insertByName x l ↔ z = x ∨ z ∈ l := by
  induction l with
  | nil => simp [insertByName]
  | cons y ys ih =>
    by_cases hle : y.name ≤ x.name
    · rw [show insertByName x (y :: ys) = y :: insertByName x ys from by
        simp [insertByName, hle]]
      rw [List.mem_cons, ih, List.mem_cons]
      tauto
    · rw [show insertByName x (y :: ys) = x :: y :: ys from by
        simp [insertByName, hle]]
      simp [List.mem_cons]

theorem sorted_insertByName (x : CountryWithRegion) (l : List CountryWithRegion)
    (h : List.Sorted (fun a b => a.name ≤ b.name) l) :
    List.Sorted (fun a b => a.name ≤ b.name) (insertByName x l) := by
  induction l with
  | nil => simp [insertByName]
  | cons y ys ih =>
    rw [List.sorted_cons] at h
    by_cases hle : y.name ≤ x.name
    · rw [show insertByName x (y :: ys) = y :: insertByName x ys from by
        simp [insertByName, hle]]
      rw [List.sorted_cons]
      refine ⟨?_, ih h.2⟩
      intro b hb
      rcases (mem_insertByName x b ys).mp hb with hbx | hbm
      · rw [hbx]
        exact hle
      · exact h.1 b hbm
    · rw [show insertByName x (y :: ys) = x :: y :: ys from by
        simp [insertByName, hle]]
      rw [List.sorted_cons]
      constructor
      · intro b hb
        have hxy : x.name ≤ y.name := le_of_not_le hle
        rcases List.mem_cons.mp hb with hby | hbm
        · rw [hby]
          exact hxy
        · exact le_trans hxy (h.1 b hbm)
      · rw [List.sorted_cons]
        exact h

theorem mem_sortByName_fold (l : List CountryWithRegion) :
    ∀ (acc : List CountryWithRegion) (z : CountryWithRegion),
      (z ∈ l.foldl (fun acc x => insertByName x acc) acc) ↔ z ∈ acc ∨ z ∈ l := by
  induction l with
  | nil =>
    intro acc z
    simp
  | cons x xs ih =>
    intro acc z
    show (z ∈ xs.foldl _ (insertByName x acc)) ↔ _
    rw [ih, mem_insertByName]
    simp only [List.mem_cons]
    tauto

theorem sorted_sortByName_fold (l : List CountryWithRegion) :
    ∀ acc, List.Sorted (fun a b => a.name ≤ b.name) acc →
      List.Sorted (fun a b => a.name ≤ b.name)
        (l.foldl (fun acc x => insertByName x acc) acc) := by
  induction l with
  | nil =>
    intro acc h
    exact h
  | cons x xs ih =>
    intro acc h
    exact ih (insertByName x acc) (sorted_insertByName x acc h)

/-- C8.  Region lookup is case-insensitive (queries equal after lowercasing
return identical results), returns NotFound exactly when no region key
matches case-insensitively, and otherwise returns members of the matched
region (every result's code is drawn from the region's member codes) sorted
by country name ascending. -/
theorem C8_region_lookup_spec (cs : List Country)
    (regions : List (String × List String)) (r1 r2 : String) :
    (lowerStr r1 = lowerStr r2 →
      get_countries_by_region cs regions r1
        = get_countries_by_region cs regions r2)
    ∧ (get_countries_by_region cs regions r1 = none ↔
        ∀ kv ∈ regions, lowerStr kv.1 ≠ lowerStr r1)
    ∧ ∀ l, get_countries_by_region cs regions r1 = some l →
        List.Sorted (fun a b => a.name ≤ b.name) l
        ∧ ∀ x ∈ l, ∃ kv,
            regions.find? (fun kv => lowerStr kv.1 == lowerStr r1) = some kv
            ∧ x.code ∈ kv.2 := by
  refine ⟨?_, ?_, ?_⟩
  · intro h
    simp only [get_countries_by_region, h]
  · rcases hf : regions.find? (fun kv => lowerStr kv.1 == lowerStr r1) with _ | kv
    · simp only [get_countries_by_region, hf]
      constructor
      · intro _ kv hkv
        have h2 := List.find?_eq_none.mp hf kv hkv
        simpa using h2
      · intro _
        trivial
    · simp only [get_countries_by_region, hf]
      constructor
      · intro h
        exact absurd h (by simp)
      · intro hall
        exfalso
        have hmem := List.mem_of_find?_eq_some hf
        have hp := List.find?_some hf
        simp only [beq_iff_eq] at hp
        exact (hall kv hmem) hp
  · intro l hl
    rcases hf : regions.find? (fun kv => lowerStr kv.1 == lowerStr r1) with _ | kv
    · rw [show get_countries_by_region cs regions r1 = none from by
        simp [get_countries_by_region, hf]] at hl
      exact absurd hl (by simp)
    · rw [show get_countries_by_region cs regions r1
          = some (sortByName
            ((cs.filter (fun c => kv.2.contains c.code)).map projRegion)) from by
        simp [get_countries_by_region, hf]] at hl
      have hlv : l = sortByName
          ((cs.filter (fun c => kv.2.contains c.code)).map projRegion) := by
        simpa using hl.symm
      subst hlv
      constructor
      · exact sorted_sortByName_fold _ [] (by simp)
      · intro x hx
        refine ⟨kv, hf, ?_⟩
        unfold sortByName at hx
        rw [mem_sortByName_fold] at hx
        rcases hx with hx | hx
        · simp at hx
        · rcases List.mem_map.mp hx with ⟨c, hc, he⟩
          have h2 := List.mem_filter.mp hc
          rw [← he]
          simpa [projRegion] using h2.2

/-- Demo countries for the C8 witness. -/
def c8Countries : List Country :=
  [{ code := "DE", name := "Germany", region := "Europe" },
   { code := "FR", name := "France", region := "Europe" }]

/-- Demo regions for the C8 witness. -/
def c8Regions : List (String × List String) :=
  [("Europe", ["FR", "DE"])]

/-- Witness for C8: the uppercase and lowercase spellings of a region name
yield identical results. -/
theorem C8_witness :
    get_countries_by_region c8Countries c8Regions "EUROPE"
      = get_countries_by_region c8Countries c8Regions "europe" :=
  (C8_region_lookup_spec c8Countries c8Regions "EUROPE" "europe").1 rfl

/-- Demo country for C10. -/
def c10Countries : List Country :=
  [{ code := "US", name := "United States", phone_code := "+1" }]

/-- C10 counterexample: for the input " 1" (leading whitespace), stripping
happens before the '+' is prepended, giving "+1"; but for "+" ++ " 1" the
'+' blocks the left strip, giving search code "+ 1" — so the two calls
disagree on a dataset containing phone code "+1". -/
theorem C10_counterexample :
    search_by_phone_code c10Countries " 1"
        ≠ search_by_phone_code c10Countries ("+" ++ " 1")
    ∧ search_by_phone_code c10Countries " 1"
        = [{ code := "US", name := "United States", phone_code := "+1" }]
    ∧ search_by_phone_code c10Countries ("+" ++ " 1") = [] := by
  refine ⟨by decide, by decide, by decide⟩

theorem rstripList_cons_of_neg (c : Char) (l : List Char) (h : isWS c = false) :
    rstripList (c :: l) = c :: rstripList l := by
  unfold rstripList
  rw [List.reverse_cons, List.dropWhile_append]
  by_cases he : (l.reverse.dropWhile isWS).isEmpty
  · have he2 : l.reverse.dropWhile isWS = [] := by simpa using he
    simp [he, he2, List.dropWhile, h]
  · simp [he]

theorem stripStr_plus (s : String) (hl : lstripStr s = s) :
    stripStr ("+" ++ s) = "+" ++ stripStr s := by
  have hld : s.data.dropWhile isWS = s.data := congrArg String.data hl
  apply string_data_inj
  have h2 : (stripStr ("+" ++ s)).data
      = rstripList ((("+" ++ s).data).dropWhile isWS) := rfl
  have h3 : ("+" ++ s).data = '+' :: s.data := by
    rw [String.data_append]
    rfl
  have hws : isWS '+' = false := rfl
  have h4 : ('+' :: s.data).dropWhile isWS = '+' :: s.data := by
    simp [List.dropWhile, hws]
  rw [h2, h3, h4, rstripList_cons_of_neg '+' s.data hws]
  have h5 : ("+" ++ stripStr s).data = '+' :: (stripStr s).data := by
    rw [String.data_append]
    rfl
  rw [h5]
  have h6 : (stripStr s).data = rstripList (s.data.dropWhile isWS) := rfl
  rw [h6, hld]

/-- C10 amended.  For every input with no leading whitespace whose stripped
form does not start with '+', phone-code search returns exactly the same
list as for the same input with '+' prepended; and every returned country's
phone code equals the normalized code or starts with it. -/
theorem C10_plus_normalization (cs : List Country) (s : String)
    (hl : lstripStr s = s)
    (hp : strStartsWith (stripStr s) "+" = false) :
    search_by_phone_code cs s = search_by_phone_code cs ("+" ++ s)
    ∧ ∀ c ∈ search_by_phone_code cs s,
        c.phone_code = "+" ++ stripStr s
          ∨ strStartsWith c.phone_code ("+" ++ stripStr s) = true := by
  have hsp : stripStr ("+" ++ s) = "+" ++ stripStr s := stripStr_plus s hl
  have hstart : strStartsWith ("+" ++ stripStr s) "+" = true := by
    unfold strStartsWith
    rw [String.data_append]
    have hd : ("+" : String).data = ['+'] := rfl
    rw [hd]
    simp [List.isPrefixOf]
  constructor
  · unfold search_by_phone_code
    simp only [hsp, hp, hstart, Bool.false_eq_true, if_false, if_true]
  · intro c hc
    unfold search_by_phone_code at hc
    simp only [hp, Bool.false_eq_true, if_false] at hc
    have hc2 := List.take_subset _ _ hc
    rcases List.mem_map.mp hc2 with ⟨c0, hc0, he⟩
    have hfil := List.mem_filter.mp hc0
    have hmatch := hfil.2
    simp only [Bool.or_eq_true, beq_iff_eq] at hmatch
    rw [← he]
    simpa [projBase] using hmatch

/-- Witness for the amended C10: "1" and "+1" give identical results. -/
theorem C10_witness :
    search_by_phone_code c10Countries "1"
      = search_by_phone_code c10Countries ("+" ++ "1") :=
  (C10_plus_normalization c10Countries "1" rfl rfl).1

end CountryStateApi
